import Mathlib

/-!
Verification development for the repository: a shallow embedding of the
Python source file main.py (an Azure AI agent demo driving a cloud run and
an MCP tool server), together with theorems settling the frozen claims.

Modelling conventions:
* JSON values (Python dicts, lists, strings, numbers, bools, None as they
  appear after json parsing) are the inductive type JsonVal.  Python dicts
  are association lists; parsed JSON has no duplicate keys, and lookups
  return the first binding.
* Fallible effects (HTTP requests, SDK calls, token acquisition, the
  wall clock) are supplied by explicit environment records; an exception
  from such a call is an Except.error value.  Code paths that let an
  exception escape are modelled by an explicit raised outcome.
* Python truthiness of strings (None and the empty string are falsy) is
  modelled explicitly where the source relies on it.
-/

/-- A parsed JSON value (the result of response.json() in the source).
Numbers are modelled as integers; no claim depends on fractional values. -/
inductive JsonVal where
  | null
  | bool (b : Bool)
  | num (n : Int)
  | str (s : String)
  | arr (xs : List JsonVal)
  | obj (fields : List (String × JsonVal))

/-- First binding of a key in an association list (Python dict lookup;
parsed JSON objects carry each key at most once). -/
def lookupFirst : List (String × JsonVal) → String → Option JsonVal
  | [], _ => none
  | (k, v) :: rest, key => if k = key then some v else lookupFirst rest key

/-- Python membership test for a string in a list value: an element equals
the string only if it is itself that string. -/
def listHasStr (xs : List JsonVal) (t : String) : Bool :=
  xs.any (fun v => match v with
    | .str s => s == t
    | _ => false)

/-- Substring test on character lists, modelling the Python operator
`needle in haystack` for strings. -/
def charsContain (needle : List Char) : List Char → Bool
  | [] => needle.isEmpty
  | c :: rest => needle.isPrefixOf (c :: rest) || charsContain needle rest

/-- Substring test on strings. -/
def strContains (haystack needle : String) : Bool :=
  charsContain needle.data haystack.data

/-- Python `needle in value` where value is a parsed JSON value: key test
for dicts, element test for lists, substring test for strings, and a
TypeError for values that are not containers. -/
def pyContains (v : JsonVal) (needle : String) : Except String Bool :=
  match v with
  | .obj fields => .ok (lookupFirst fields needle).isSome
  | .arr xs => .ok (listHasStr xs needle)
  | .str s => .ok (strContains s needle)
  | _ => .error "TypeError: argument is not iterable"

/-- Python `value[key]` with a string key: dict lookup for dicts, and a
TypeError for lists and strings (their indices must be integers). -/
def pySubscript (v : JsonVal) (key : String) : Except String JsonVal :=
  match v with
  | .obj fields =>
    match lookupFirst fields key with
    | some w => .ok w
    | none => .error "KeyError"
  | _ => .error "TypeError: indices must be integers"

/-- Python repr of a parsed JSON value (string escaping is not modelled;
no claim depends on the rendering of containers). -/
def pyRepr : JsonVal → String
  | .null => "None"
  | .bool b => if b then "True" else "False"
  | .num n => toString n
  | .str s => "\x27" ++ s ++ "\x27"
  | .arr xs => "[" ++ String.intercalate ", " (xs.attach.map (fun x => pyRepr x.1)) ++ "]"
  | .obj fields =>
    "\x7b" ++
      String.intercalate ", "
        (fields.attach.map (fun f => "\x27" ++ f.1.1 ++ "\x27: " ++ pyRepr f.1.2)) ++
    "\x7d"
decreasing_by
  all_goals simp_wf
  · have h := List.sizeOf_lt_of_mem x.2
    omega
  · have h := List.sizeOf_lt_of_mem f.2
    have h2 : sizeOf (f.1.2) < sizeOf f.1 := by
      obtain ⟨a, b⟩ := f.1
      simp
    omega

/-- Python str() of a parsed JSON value: strings render bare, everything
else as its repr. -/
def pyStr : JsonVal → String
  | .str s => s
  | v => pyRepr v

/-- Whether a returned value is a dict carrying an "error" key. -/
def hasErrorKey : JsonVal → Bool
  | .obj fields => (lookupFirst fields "error").isSome
  | _ => false

/-- Python s.rstrip of the slash character: drop trailing slashes. -/
def pyRstripSlash (s : String) : String :=
  ⟨(s.data.reverse.dropWhile (fun c => c = '/')).reverse⟩

/-- Head of Python s.rsplit on a slash with maxsplit one: everything before
the last slash, or the whole string when it has no slash. -/
def rsplitSlashHead (s : String) : String :=
  if s.data.contains '/' then
    ⟨(s.data.reverse.dropWhile (fun c => c ≠ '/')).drop 1 |>.reverse⟩
  else s

/-- Suffix test on strings via their character lists. -/
def strEndsWith (s suffix : String) : Bool :=
  suffix.data.isSuffixOf s.data

/-!
Token acquisition (main.py, get_mcp_access_token).  The module-level cache
_mcp_token_cache and the ambient clock and credential are passed
explicitly; the functional result records the returned-or-raised value,
the updated cache, whether a fresh token was requested, and the scope the
request used.
-/

/-- The module-level token cache: a token (None initially) and an expiry. -/
structure TokenCache where
  token : Option String
  expires_at : Int

/-- Ambient inputs of get_mcp_access_token: the current wall-clock reading
and the outcome of credential.get_token (a token with its expiry, or a
raised exception rendered as a message). -/
structure TokenEnv where
  current_time : Int
  fresh : Except String (String × Int)

/-- Observable outcome of get_mcp_access_token: the value returned (ok) or
the RuntimeError raised (error), the cache afterwards, whether a fresh
token was requested, and the scope string sent with that request. -/
structure TokenOutcome where
  result : Except String String
  cache : TokenCache
  requested : Bool
  requestedScope : Option String

/-- Python truthiness of an optional string: None and the empty string are
falsy. -/
def optStrTruthy : Option String → Bool
  | none => false
  | some s => !(s == "")

/-- The scope actually requested: MCP_AUTH_SCOPE.rsplit on a slash keeps
the part before the last slash, and "/.default" is appended. -/
def token_scope (mcp_auth_scope : String) : String :=
  rsplitSlashHead mcp_auth_scope ++ "/.default"

/-- get_mcp_access_token from main.py.  Returns the cached token when it is
truthy and expires more than 300 seconds from now; otherwise requests a
fresh token under token_scope, caching token and expiry on success, and
raising RuntimeError (cache untouched) on failure. -/
def get_mcp_access_token (mcp_auth_scope : String) (cache : TokenCache)
    (env : TokenEnv) : TokenOutcome :=
  if optStrTruthy cache.token && decide (cache.expires_at > env.current_time + 300) then
    { result := .ok (cache.token.getD "")
      cache := cache
      requested := false
      requestedScope := none }
  else
    match env.fresh with
    | .ok (t, exp) =>
      { result := .ok t
        cache := { token := some t, expires_at := exp }
        requested := true
        requestedScope := some (token_scope mcp_auth_scope) }
    | .error e =>
      { result := .error ("Cannot authenticate with MCP server: " ++ e)
        cache := cache
        requested := true
        requestedScope := some (token_scope mcp_auth_scope) }

/-!
Tool-name extraction (main.py, extract_tools_from_response).  The body
runs under a try/except whose handler returns the tools accumulated so
far; every exception the body can raise (a TypeError from a membership or
subscript on a non-dict) occurs before any name is accumulated, so the
handler always returns the empty list.
-/

/-- The shared collection loop: keep the name field of dict entries and
string entries, in order, skipping everything else. -/
def collectNames : List JsonVal → List JsonVal
  | [] => []
  | .obj fields :: rest =>
    match lookupFirst fields "name" with
    | some v => v :: collectNames rest
    | none => collectNames rest
  | .str s :: rest => .str s :: collectNames rest
  | _ :: rest => collectNames rest

/-- extract_tools_from_response from main.py.  The four recognized formats
are tried by one if/elif chain whose guards use the Python membership and
subscript operators; a dict is inspected for a "tools" list, then a
"capabilities" dict, then falls back to recursing under "result"; a list
is collected element-wise unless the membership guards for "tools" or
"capabilities" match one of its string elements first, in which case the
subsequent subscript raises a TypeError that the handler turns into the
empty list; a string either raises the same caught TypeError at one of
the guards or reaches the end of the chain, returning the empty list
either way; any other value raises at the first membership test, also
caught. -/
def extract_tools_from_response : JsonVal → List JsonVal
  | .obj fields =>
    match lookupFirst fields "tools" with
    | some (.arr xs) => collectNames xs
    | _ =>
      match lookupFirst fields "capabilities" with
      | some (.obj caps) =>
        match lookupFirst caps "tools" with
        | some (.arr xs) => collectNames xs
        | _ => []
      | _ =>
        match h : lookupFirst fields "result" with
        | some v => extract_tools_from_response v
        | none => []
  | .arr xs =>
    if listHasStr xs "tools" then []
    else if listHasStr xs "capabilities" then []
    else collectNames xs
  | .str _ => []
  | _ => []
decreasing_by
  simp_wf
  have hsub : sizeOf v < sizeOf fields := by
    induction fields with
    | nil => simp [lookupFirst] at h
    | cons p rest ih =>
      unfold lookupFirst at h
      by_cases hk : p.1 = "result"
      · simp [hk] at h
        obtain ⟨a, b⟩ := p
        simp at hk ⊢
        subst hk
        cases h
        simp
        omega
      · simp [hk] at h
        have := ih h
        obtain ⟨a, b⟩ := p
        simp
        omega
  omega

/-!
MCP tool execution (main.py, execute_mcp_tool).  The whole body runs under
a try/except returning an error dict, so the function never propagates an
exception; the environment supplies the token acquisition outcome and the
HTTP response (or the exception either raises).
-/

/-- An HTTP response as the source consumes it: the status code, the raw
body text, and the outcome of response.json() (parsed value, or the
JSONDecodeError message). -/
structure HttpResponse where
  status_code : Nat
  text : String
  jsonBody : Except String JsonVal

/-- Ambient inputs of execute_mcp_tool: the get_mcp_access_token outcome
(ok token or raised message) and the requests.post outcome (a response, or
a raised exception message). -/
structure ExecEnv where
  token : Except String String
  post : Except String HttpResponse

/-- The error dict literal the source returns from its handlers. -/
def errObj (msg : String) : JsonVal :=
  .obj [("error", .str msg)]

/-- Python text[:500] and friends: take a character-count prefix. -/
def pySlice (s : String) (n : Nat) : String :=
  ⟨s.data.take n⟩

/-- The MCP-style result unwrapping at the end of execute_mcp_tool,
including the logging slice result_text[:200] whose TypeError on
non-sliceable values escapes to the outer handler. -/
def unwrapResult (result : JsonVal) : JsonVal :=
  match result with
  | .obj rfields =>
    match lookupFirst rfields "content" with
    | some (.arr (first :: _)) =>
      match first with
      | .obj cfields =>
        match lookupFirst cfields "text" with
        | some (.str s) => .str s
        | some (.arr xs) => .arr xs
        | some _ => errObj "Execution failed: TypeError: value is not sliceable"
        | none => result
      | _ => result
    | _ => result
  | _ => result

/-- The JSON-RPC error branch: error_info.get only exists on dicts; a
non-dict "error" value raises an AttributeError caught by the outer
handler. -/
def jsonRpcErrorReply (errorInfo : JsonVal) : JsonVal :=
  match errorInfo with
  | .obj efields =>
    errObj ("MCP Error [" ++ pyStr ((lookupFirst efields "code").getD (.num (-1)))
      ++ "]: " ++ pyStr ((lookupFirst efields "message").getD (.str "Unknown error")))
  | _ => errObj "Execution failed: AttributeError: no attribute get"

/-- execute_mcp_tool from main.py.  Every branch of the source body,
including the exceptions its membership and subscript operators can raise,
funnels into a returned value; the outer except Exception handler turns
any escaping exception into an error dict. -/
def execute_mcp_tool (env : ExecEnv) : JsonVal :=
  match env.token with
  | .error e => errObj ("Execution failed: " ++ e)
  | .ok _ =>
    match env.post with
    | .error e => errObj ("Execution failed: " ++ e)
    | .ok response =>
      if response.status_code = 401 then
        errObj "Authentication failed - invalid or expired token"
      else if response.status_code = 403 then
        errObj "Authorization failed - user does not have required permissions"
      else if response.status_code ≠ 200 then
        errObj ("HTTP " ++ toString response.status_code ++ ": "
          ++ pySlice response.text 500)
      else
        match response.jsonBody with
        | .error e => errObj ("Invalid JSON response: " ++ e)
        | .ok data =>
          match pyContains data "error" with
          | .error e => errObj ("Execution failed: " ++ e)
          | .ok true =>
            match pySubscript data "error" with
            | .ok errorInfo => jsonRpcErrorReply errorInfo
            | .error e => errObj ("Execution failed: " ++ e)
          | .ok false =>
            match pyContains data "result" with
            | .error e => errObj ("Execution failed: " ++ e)
            | .ok true =>
              match pySubscript data "result" with
              | .ok result => unwrapResult result
              | .error e => errObj ("Execution failed: " ++ e)
            | .ok false =>
              .obj [("error", .str "Unexpected response format"), ("response", data)]

/-!
Tool discovery (main.py, discover_mcp_tools).  The JSON-RPC probe and the
four REST probes are supplied as environment outcomes; every exception a
probe can raise is caught by the handler around that probe and discovery
moves on, so the function itself never raises.
-/

/-- Ambient inputs of discover_mcp_tools: the token acquisition outcome,
the JSON-RPC tools/list POST outcome, and the outcome of the GET against
each of the four REST endpoints, in the order the source tries them. -/
structure DiscoverEnv where
  token : Except String String
  jsonrpc : Except String HttpResponse
  rest : Fin 4 → Except String HttpResponse

/-- The hard-coded fallback list of MSSQL tool names from main.py. -/
def fallback_tools : List JsonVal :=
  [.str "query_sql", .str "execute_sql", .str "list_tables",
   .str "describe_table", .str "create_table", .str "drop_table",
   .str "create_index", .str "update_data"]

/-- The REST endpoints discover_mcp_tools probes, in source order. -/
def endpoints_to_try (server_url : String) : List String :=
  [pyRstripSlash server_url ++ "/tools",
   pyRstripSlash server_url ++ "/list_tools",
   pyRstripSlash server_url ++ "/capabilities",
   pyRstripSlash server_url ++ "/introspect"]

/-- What the JSON-RPC tools/list probe yields: tool names when the POST
succeeded with status 200, the body parsed, the membership test on
"result" succeeded and held, and the subscript succeeded; the empty list
when any of those steps failed or raised (the except around the probe
swallows the exception and discovery moves on). -/
def jsonrpcCandidate (env : DiscoverEnv) : List JsonVal :=
  match env.jsonrpc with
  | .error _ => []
  | .ok response =>
    if response.status_code = 200 then
      match response.jsonBody with
      | .error _ => []
      | .ok data =>
        match pyContains data "result" with
        | .error _ => []
        | .ok false => []
        | .ok true =>
          match pySubscript data "result" with
          | .error _ => []
          | .ok r => extract_tools_from_response r
    else []

/-- What the i-th REST probe yields: the extraction result when the GET
succeeded with status 200 and the body parsed, and the empty list when the
request raised, the status differed, or parsing raised (each such
exception is caught by the handler inside the for loop). -/
def restCandidate (env : DiscoverEnv) (i : Fin 4) : List JsonVal :=
  match env.rest i with
  | .error _ => []
  | .ok response =>
    if response.status_code = 200 then
      match response.jsonBody with
      | .error _ => []
      | .ok data => extract_tools_from_response data
    else []

/-- discover_mcp_tools from main.py: fall back when the token cannot be
obtained; otherwise return the first probe result that is a non-empty
list, trying the JSON-RPC probe and then the four REST endpoints in
order, and fall back when every probe yields nothing. -/
def discover_mcp_tools (env : DiscoverEnv) : List JsonVal :=
  match env.token with
  | .error _ => fallback_tools
  | .ok _ =>
    let c0 := jsonrpcCandidate env
    if !c0.isEmpty then c0
    else
      let c1 := restCandidate env 0
      if !c1.isEmpty then c1
      else
        let c2 := restCandidate env 1
        if !c2.isEmpty then c2
        else
          let c3 := restCandidate env 2
          if !c3.isEmpty then c3
          else
            let c4 := restCandidate env 3
            if !c4.isEmpty then c4
            else fallback_tools

/-!
Agent reuse (main.py, get_or_create_agent).
-/

/-- The fields of an SDK Agent object the source reads. -/
structure Agent where
  id : String
  name : String
  model : String

/-- Ambient inputs of get_or_create_agent: the AGENT_ID environment
variable, the force_create argument, the outcome of
project_client.agents.get_agent, and the agent create_agent returns. -/
structure AgentEnv where
  agent_id : Option String
  force_create : Bool
  retrieve : Except String Agent
  created : Agent

/-- Observable outcome of get_or_create_agent: the agent returned, whether
create_agent was called, and whether get_agent was attempted. -/
structure AgentOutcome where
  agent : Agent
  created : Bool
  retrieveAttempted : Bool

/-- get_or_create_agent from main.py: with a truthy AGENT_ID and
force_create unset, try to retrieve the existing agent and return it on
success; create a new agent otherwise and when retrieval raised. -/
def get_or_create_agent (env : AgentEnv) : AgentOutcome :=
  if optStrTruthy env.agent_id && !env.force_create then
    match env.retrieve with
    | .ok agent => { agent := agent, created := false, retrieveAttempted := true }
    | .error _ => { agent := env.created, created := true, retrieveAttempted := true }
  else
    { agent := env.created, created := true, retrieveAttempted := false }

/-!
The poll-and-satisfy-required-action loop (main.py, drive_until_complete).

The loop is a step function over an explicit state (the current run, the
iteration counter, and one call counter per oracle) driven by an
environment of oracles: the clock readings taken at the top of each
iteration, the outcomes of the run fetches, token acquisitions and
submissions in call order, the cancel outcome, and the results of
execute_mcp_tool calls (that function never raises, see its model above,
so its oracle is total).  The loop records its observable actions as a
trace of events.  Recursion is by fuel; termination of the source loop is
the theorem that enough fuel exists.
-/

/-- A tool call carried by a required action.  isMcp records whether the
SDK object is a RequiredMcpToolCall (the only class the loop services). -/
structure ToolCall where
  isMcp : Bool
  id : String
  name : String
  server_label : String
  arguments : JsonVal

/-- A required action attached to a run: tool approvals, tool outputs
(each with a possibly absent tool_calls list), or anything else. -/
inductive RAction where
  | approval (tool_calls : Option (List ToolCall))
  | outputs (tool_calls : Option (List ToolCall))
  | other

/-- The fields of a run the loop reads. -/
structure Run where
  status : String
  required_action : Option RAction

/-- The ToolApproval the source builds for each approved call. -/
structure ToolApproval where
  tool_call_id : String
  approve : Bool
  headers : Option (List (String × String))

/-- The tool-output record the source submits for each executed call. -/
structure ToolOutput where
  tool_call_id : String
  output : JsonVal

/-- The run statuses the while condition treats as non-terminal. -/
def nonTerminal (s : String) : Bool :=
  s = "queued" || s = "in_progress" || s = "requires_action"

/-- Ambient inputs of drive_until_complete.  times i is the clock reading
of iteration i (time0 is the start_time reading); fetch, token and submit
give the outcome of the n-th call to runs.get, get_mcp_access_token and
runs.submit_tool_outputs; cancel is the runs.cancel outcome; execTool is
the result of the n-th execute_mcp_tool call. -/
structure DriveEnv where
  time0 : Int
  times : Nat → Int
  timeout_seconds : Int
  fetch : Nat → Except String Run
  token : Nat → Except String String
  submit : Nat → Except String Unit
  cancel : Except String Unit
  execTool : Nat → JsonVal

/-- Loop state: the run variable plus the iteration counter and one call
counter per oracle. -/
structure LoopState where
  run : Run
  iteration : Nat
  nFetch : Nat
  nToken : Nat
  nSubmit : Nat
  nExec : Nat

/-- Observable actions of the loop, in order. -/
inductive LoopEvent where
  | sleepEv
  | fetchEv (outcome : Except String Run)
  | cancelEv
  | approvalsEv (calls : List ToolCall) (approvals : List ToolApproval)
  | submitApprovalsEv (approvals : List ToolApproval)
  | outputsEv (calls : List ToolCall) (outs : List ToolOutput)
  | submitOutputsEv (outs : List ToolOutput)

/-- How an execution of the loop ends.  completed is the normal return
with a terminal status; timedOut is the return after the timeout branch
broke (carrying the clock reading that tripped it); fetchFailed is the
return after the guarded fetch raised and broke; raised models an
exception escaping from an unguarded SDK call (the submit calls and the
after-action fetch are not wrapped in try); fuelOut is exhaustion of the
modelling fuel, never of the source. -/
inductive DriveExit where
  | completed (run : Run)
  | timedOut (run : Run) (t : Int)
  | fetchFailed (run : Run)
  | raised
  | fuelOut (st : LoopState)

/-- Whether an exit is the fuel marker. -/
def DriveExit.isFuelOut : DriveExit → Bool
  | .fuelOut _ => true
  | _ => false

/-- One iteration either continues with a new state or ends the loop. -/
inductive StepOut where
  | next (st : LoopState) (evs : List LoopEvent)
  | stop (ex : DriveExit) (evs : List LoopEvent)

/-- Events of a step. -/
def StepOut.events : StepOut → List LoopEvent
  | .next _ evs => evs
  | .stop _ evs => evs

/-- The approval-gathering for loop: one ToolApproval with approve set,
carrying the authentication headers, for each RequiredMcpToolCall; other
call classes are skipped. -/
def gatherApprovals (auth : Option (List (String × String))) :
    List ToolCall → List ToolApproval
  | [] => []
  | c :: cs =>
    if c.isMcp then
      { tool_call_id := c.id, approve := true, headers := auth }
        :: gatherApprovals auth cs
    else gatherApprovals auth cs

/-- The output-gathering for loop: execute each RequiredMcpToolCall (the
second component threads the execute_mcp_tool call counter) and record its
result under the call id; other call classes are skipped. -/
def gatherOutputs (execTool : Nat → JsonVal) :
    Nat → List ToolCall → List ToolOutput × Nat
  | k, [] => ([], k)
  | k, c :: cs =>
    if c.isMcp then
      let rest := gatherOutputs execTool (k + 1) cs
      ({ tool_call_id := c.id, output := execTool k } :: rest.1, rest.2)
    else gatherOutputs execTool k cs

/-- The after-action fetch at the bottom of the loop body; it is not
wrapped in a try, so a raised exception escapes the function. -/
def afterHandle (env : DriveEnv) (st : LoopState) (evs : List LoopEvent) : StepOut :=
  match env.fetch st.nFetch with
  | .ok r => .next { st with run := r, nFetch := st.nFetch + 1 }
      (evs ++ [.fetchEv (.ok r)])
  | .error e => .stop .raised (evs ++ [.fetchEv (.error e)])

/-- One iteration of the loop body of drive_until_complete, entered with a
non-terminal status: bump the iteration counter, read the clock; on
timeout try to cancel (success or exception, either way) and break; with a
status other than requires_action sleep, then fetch inside a try (an
exception breaks); otherwise service the required action - approvals are
gathered after one token acquisition whose failure downgrades the headers
to None, outputs are gathered by executing each call - submit them when
any were gathered, and fetch the next status. -/
def driveStep (env : DriveEnv) (st : LoopState) : StepOut :=
  let iter := st.iteration + 1
  let t := env.times iter
  let st1 := { st with iteration := iter }
  if t - env.time0 > env.timeout_seconds then
    match env.cancel with
    | .ok _ => .stop (.timedOut st1.run t) [.cancelEv]
    | .error _ => .stop (.timedOut st1.run t) [.cancelEv]
  else if st1.run.status ≠ "requires_action" then
    match env.fetch st1.nFetch with
    | .ok r => .next { st1 with run := r, nFetch := st1.nFetch + 1 }
        [.sleepEv, .fetchEv (.ok r)]
    | .error e => .stop (.fetchFailed st1.run) [.sleepEv, .fetchEv (.error e)]
  else
    match st1.run.required_action with
    | some (.approval tcs) =>
      let auth : Option (List (String × String)) :=
        match env.token st1.nToken with
        | .ok tok => some [("Authorization", "Bearer " ++ tok)]
        | .error _ => none
      let st2 := { st1 with nToken := st1.nToken + 1 }
      let calls := tcs.getD []
      let aps := gatherApprovals auth calls
      if aps.isEmpty then
        afterHandle env st2 [.approvalsEv calls aps]
      else
        match env.submit st2.nSubmit with
        | .ok _ => afterHandle env { st2 with nSubmit := st2.nSubmit + 1 }
            [.approvalsEv calls aps, .submitApprovalsEv aps]
        | .error _ => .stop .raised [.approvalsEv calls aps, .submitApprovalsEv aps]
    | some (.outputs tcs) =>
      let calls := tcs.getD []
      let gathered := gatherOutputs env.execTool st1.nExec calls
      let st2 := { st1 with nExec := gathered.2 }
      if gathered.1.isEmpty then
        afterHandle env st2 [.outputsEv calls gathered.1]
      else
        match env.submit st2.nSubmit with
        | .ok _ => afterHandle env { st2 with nSubmit := st2.nSubmit + 1 }
            [.outputsEv calls gathered.1, .submitOutputsEv gathered.1]
        | .error _ => .stop .raised [.outputsEv calls gathered.1, .submitOutputsEv gathered.1]
    | some .other => afterHandle env st1 []
    | none => afterHandle env st1 []

/-- The while loop of drive_until_complete, by fuel: while the status is
non-terminal run one iteration; a status outside the non-terminal set is
the normal return. -/
def driveLoop (env : DriveEnv) : Nat → LoopState → DriveExit × List LoopEvent
  | 0, st => (.fuelOut st, [])
  | fuel + 1, st =>
    if nonTerminal st.run.status then
      match driveStep env st with
      | .next st2 evs =>
        let rest := driveLoop env fuel st2
        (rest.1, evs ++ rest.2)
      | .stop ex evs => (ex, evs)
    else (.completed st.run, [])

/-- The initial loop state for a given starting run. -/
def initState (run0 : Run) : LoopState :=
  { run := run0, iteration := 0, nFetch := 0, nToken := 0, nSubmit := 0, nExec := 0 }

/-- drive_until_complete from main.py, as the fuelled loop from the
initial state. -/
def drive_until_complete (env : DriveEnv) (run0 : Run) (fuel : Nat) :
    DriveExit × List LoopEvent :=
  driveLoop env fuel (initState run0)

/-- Occurrences of the cancel event in a trace. -/
def countCancel : List LoopEvent → Nat
  | [] => 0
  | .cancelEv :: rest => countCancel rest + 1
  | _ :: rest => countCancel rest

/-!
Concrete runs and environments used to instantiate the theorems below.
-/

/-- A RequiredMcpToolCall as the loop sees it. -/
def mcpCall : ToolCall :=
  { isMcp := true, id := "call_1", name := "query_sql",
    server_label := "mssql", arguments := .obj [] }

/-- A required tool call of a different SDK class (isMcp is false). -/
def fnCall : ToolCall :=
  { isMcp := false, id := "call_fn", name := "fn",
    server_label := "", arguments := .obj [] }

/-- A run demanding approval of one MCP tool call. -/
def runApproval : Run :=
  { status := "requires_action", required_action := some (.approval (some [mcpCall])) }

/-- A run demanding approval of one non-MCP tool call. -/
def runApprovalFn : Run :=
  { status := "requires_action", required_action := some (.approval (some [fnCall])) }

/-- A run in a terminal status. -/
def runCompleted : Run :=
  { status := "completed", required_action := none }

/-- A run in the queued status. -/
def runQueued : Run :=
  { status := "queued", required_action := none }

/-- A benign environment: the clock ticks one second per iteration, every
fetch yields the given run, and every SDK call succeeds. -/
def sampleEnv (r : Run) : DriveEnv :=
  { time0 := 0, times := fun n => (n : Int), timeout_seconds := 120,
    fetch := fun _ => .ok r, token := fun _ => .ok "tok",
    submit := fun _ => .ok (), cancel := .ok (),
    execTool := fun _ => .str "ok" }

/-- The sample environment with a clock far past the timeout. -/
def lateEnv : DriveEnv :=
  { sampleEnv runCompleted with times := fun _ => (1000 : Int) }

/-- The ids carried by the approvals a trace submits. -/
def approvedIds : List LoopEvent → List String
  | [] => []
  | .submitApprovalsEv aps :: rest =>
    aps.map (fun a => a.tool_call_id) ++ approvedIds rest
  | _ :: rest => approvedIds rest

/-!
Theorems.  Helper lemmas come first; each claim is settled by one theorem
(with a witness where the theorem carries hypotheses).
-/

theorem dropWhile_ne_slash_of_mem (l : List Char) (h : '/' ∈ l) :
    ∃ B, List.dropWhile (fun c => decide (c ≠ '/')) l = '/' :: B := by
  induction l with
  | nil => cases h
  | cons c rest ih =>
    by_cases hc : c = '/'
    · subst hc
      exact ⟨rest, by simp [List.dropWhile]⟩
    · have h2 : '/' ∈ rest := by
        cases h with
        | head => exact absurd rfl hc
        | tail _ h3 => exact h3
      obtain ⟨B, hB⟩ := ih h2
      refine ⟨B, ?_⟩
      rw [List.dropWhile_cons, if_pos (by simp [hc])]
      exact hB

theorem endsWith_token_scope (s : String) :
    strEndsWith (token_scope s) "/.default" = true := by
  have h : ("/.default").data <:+ (token_scope s).data := by
    rw [token_scope, String.data_append]
    exact List.suffix_append _ _
  simpa [strEndsWith, List.isSuffixOf_iff_suffix] using h

theorem token_scope_fixed (s : String) (h : strEndsWith s "/.default" = true) :
    token_scope s = s := by
  rw [strEndsWith, List.isSuffixOf_iff_suffix] at h
  obtain ⟨pre, hpre⟩ := h
  have hcontains : s.data.contains '/' = true := by
    rw [List.elem_iff, ← hpre]
    exact List.mem_append_right pre (by decide)
  have hrev : s.data.reverse
      = 't' :: 'l' :: 'u' :: 'a' :: 'f' :: 'e' :: 'd' :: '.' :: '/' :: pre.reverse := by
    rw [← hpre]
    simp
  have hhead : rsplitSlashHead s = ⟨pre⟩ := by
    rw [rsplitSlashHead, if_pos hcontains, hrev]
    simp [List.dropWhile]
  apply String.ext
  rw [token_scope, String.data_append, hhead, ← hpre]

theorem rsplit_decomposition (s : String) (h : s.data.contains '/' = true) :
    ∃ seg : String, seg.data.contains '/' = false ∧
      s = rsplitSlashHead s ++ "/" ++ seg := by
  have hmem : '/' ∈ s.data.reverse := by
    rw [List.mem_reverse]
    exact List.elem_iff.mp h
  obtain ⟨B, hB⟩ := dropWhile_ne_slash_of_mem _ hmem
  have hdecomp : s.data.reverse
      = s.data.reverse.takeWhile (fun c => decide (c ≠ '/')) ++ '/' :: B := by
    conv_lhs => rw [← List.takeWhile_append_dropWhile
      (p := fun c => decide (c ≠ '/')) (l := s.data.reverse)]
    rw [hB]
  refine ⟨⟨(s.data.reverse.takeWhile (fun c => decide (c ≠ '/'))).reverse⟩, ?_, ?_⟩
  · rw [Bool.eq_false_iff]
    intro hc
    have h1 := List.elem_iff.mp hc
    rw [List.mem_reverse] at h1
    have h2 := List.mem_takeWhile_imp h1
    simp at h2
  · have hhead : rsplitSlashHead s = ⟨B.reverse⟩ := by
      rw [rsplitSlashHead, if_pos h, hB]
      simp
    have hs : s.data = B.reverse
        ++ '/' :: (s.data.reverse.takeWhile (fun c => decide (c ≠ '/'))).reverse := by
      have h2 := congrArg List.reverse hdecomp
      simpa using h2
    apply String.ext
    rw [String.data_append, String.data_append, hhead]
    conv_lhs => rw [hs]
    simp

/-- C10: the scope get_mcp_access_token sends is never the configured
MCP_AUTH_SCOPE taken verbatim but always its transform token_scope, which
keeps everything before the last slash (the configured scope decomposes as
that prefix, a slash, and a slash-free last segment) and appends
"/.default"; the requested scope therefore always ends in "/.default",
the transform fixes any scope already ending in "/.default" (in
particular it is idempotent), and a scope without a slash is kept whole
before appending. -/
theorem token_scope_spec (scope : String) (cache : TokenCache) (env : TokenEnv) :
    ((get_mcp_access_token scope cache env).requested = true →
      (get_mcp_access_token scope cache env).requestedScope = some (token_scope scope))
    ∧ strEndsWith (token_scope scope) "/.default" = true
    ∧ (strEndsWith scope "/.default" = true → token_scope scope = scope)
    ∧ token_scope (token_scope scope) = token_scope scope
    ∧ (scope.data.contains '/' = true →
        ∃ seg : String, seg.data.contains '/' = false ∧
          scope = rsplitSlashHead scope ++ "/" ++ seg ∧
          token_scope scope = rsplitSlashHead scope ++ "/.default") := by
  refine ⟨?_, endsWith_token_scope scope, token_scope_fixed scope, ?_, ?_⟩
  · intro hreq
    by_cases hc : (optStrTruthy cache.token
        && decide (cache.expires_at > env.current_time + 300)) = true
    · exfalso
      unfold get_mcp_access_token at hreq
      rw [if_pos hc] at hreq
      simp at hreq
    · unfold get_mcp_access_token
      rw [if_neg hc]
      cases env.fresh with
      | ok p => obtain ⟨t, e⟩ := p; rfl
      | error e => rfl
  · exact token_scope_fixed _ (endsWith_token_scope scope)
  · intro h
    obtain ⟨seg, hseg, hdec⟩ := rsplit_decomposition scope h
    exact ⟨seg, hseg, hdec, rfl⟩

/-- C10 witness: at the default configured scope the transform is applied
and returns the scope unchanged, and the fresh-token request uses it. -/
theorem token_scope_spec_witness :
    (get_mcp_access_token "17a97781-0078-4478-8b4e-fe5dda9e2400/.default"
        { token := none, expires_at := 0 }
        { current_time := 0, fresh := .ok ("t", 3600) }).requestedScope
      = some (token_scope "17a97781-0078-4478-8b4e-fe5dda9e2400/.default")
    ∧ token_scope "17a97781-0078-4478-8b4e-fe5dda9e2400/.default"
      = "17a97781-0078-4478-8b4e-fe5dda9e2400/.default" := by
  refine ⟨(token_scope_spec _ _ _).1 (by rfl), (token_scope_spec
    "17a97781-0078-4478-8b4e-fe5dda9e2400/.default"
    { token := none, expires_at := 0 }
    { current_time := 0, fresh := .ok ("t", 3600) }).2.2.1 (by rfl)⟩

/-- C6: get_mcp_access_token returns the cached token without requesting a
new one exactly when the cache holds a (truthy) token whose expiry is more
than 300 seconds past the current time, leaving the cache unchanged;
otherwise it requests a fresh token, and on success stores the token and
its expiry in the cache and returns the token, while on failure it raises
a RuntimeError and leaves the cache unchanged. -/
theorem get_mcp_access_token_cache_spec (scope : String) (cache : TokenCache)
    (env : TokenEnv) :
    ((get_mcp_access_token scope cache env).requested = false ↔
      (optStrTruthy cache.token = true
        ∧ cache.expires_at > env.current_time + 300))
    ∧ ((get_mcp_access_token scope cache env).requested = false →
        (get_mcp_access_token scope cache env).cache = cache
        ∧ ∃ s, cache.token = some s
            ∧ (get_mcp_access_token scope cache env).result = .ok s)
    ∧ (∀ t e, env.fresh = .ok (t, e) →
        (get_mcp_access_token scope cache env).requested = true →
        (get_mcp_access_token scope cache env).result = .ok t
        ∧ (get_mcp_access_token scope cache env).cache
          = { token := some t, expires_at := e })
    ∧ (∀ msg, env.fresh = .error msg →
        (get_mcp_access_token scope cache env).requested = true →
        (∃ m, (get_mcp_access_token scope cache env).result = .error m)
        ∧ (get_mcp_access_token scope cache env).cache = cache) := by
  by_cases hc : (optStrTruthy cache.token
      && decide (cache.expires_at > env.current_time + 300)) = true
  · have hr : get_mcp_access_token scope cache env
        = { result := .ok (cache.token.getD ""), cache := cache,
            requested := false, requestedScope := none } := by
      unfold get_mcp_access_token
      rw [if_pos hc]
    simp only [Bool.and_eq_true, decide_eq_true_eq] at hc
    refine ⟨by simp [hr, hc], ?_, ?_, ?_⟩
    · intro _
      refine ⟨by rw [hr], ?_⟩
      cases htok : cache.token with
      | none => rw [htok] at hc; simp [optStrTruthy] at hc
      | some s => exact ⟨s, rfl, by rw [hr]; simp [htok]⟩
    · intro t e _ habs
      rw [hr] at habs
      simp at habs
    · intro msg _ habs
      rw [hr] at habs
      simp at habs
  · have hsplit : ¬(optStrTruthy cache.token = true
        ∧ cache.expires_at > env.current_time + 300) := by
      intro ⟨h1, h2⟩
      exact hc (by simp [h1, h2])
    cases henv : env.fresh with
    | ok p =>
      obtain ⟨t, e⟩ := p
      have hr : get_mcp_access_token scope cache env
          = { result := .ok t, cache := { token := some t, expires_at := e },
              requested := true,
              requestedScope := some (token_scope scope) } := by
        unfold get_mcp_access_token
        rw [if_neg hc, henv]
      refine ⟨by simp [hr, hsplit], by simp [hr], ?_, ?_⟩
      · intro t2 e2 heq _
        cases heq
        exact ⟨by rw [hr], by rw [hr]⟩
      · intro msg heq
        cases heq
    | error msg =>
      have hr : get_mcp_access_token scope cache env
          = { result := .error ("Cannot authenticate with MCP server: " ++ msg),
              cache := cache, requested := true,
              requestedScope := some (token_scope scope) } := by
        unfold get_mcp_access_token
        rw [if_neg hc, henv]
      refine ⟨by simp [hr, hsplit], by simp [hr], ?_, ?_⟩
      · intro t2 e2 heq
        cases heq
      · intro msg2 heq _
        refine ⟨⟨"Cannot authenticate with MCP server: " ++ msg, by rw [hr]⟩, by rw [hr]⟩

/-- C6 witness: an expired cache entry triggers a successful refresh that
stores the token and expiry; the iff and the failure clause are exercised
on the same concrete inputs. -/
theorem get_mcp_access_token_cache_spec_witness :
    (get_mcp_access_token "a/b" { token := some "old", expires_at := 100 }
        { current_time := 0, fresh := .ok ("new", 4000) }).result = .ok "new"
    ∧ (get_mcp_access_token "a/b" { token := some "old", expires_at := 100 }
        { current_time := 0, fresh := .ok ("new", 4000) }).cache
      = { token := some "new", expires_at := 4000 } := by
  exact (get_mcp_access_token_cache_spec "a/b"
    { token := some "old", expires_at := 100 }
    { current_time := 0, fresh := .ok ("new", 4000) }).2.2.1 "new" 4000 rfl (by rfl)

/-- C8: with a truthy AGENT_ID and force_create unset, get_or_create_agent
first attempts retrieval and on success returns the retrieved agent
without creating one; an agent is created exactly when AGENT_ID is not
truthy, force_create is set, or the retrieval raised. -/
theorem get_or_create_agent_spec (env : AgentEnv) :
    (optStrTruthy env.agent_id = true → env.force_create = false →
      (get_or_create_agent env).retrieveAttempted = true
      ∧ (∀ a, env.retrieve = .ok a →
          (get_or_create_agent env).agent = a
          ∧ (get_or_create_agent env).created = false))
    ∧ ((get_or_create_agent env).created = true ↔
        (optStrTruthy env.agent_id = false ∨ env.force_create = true
          ∨ ∃ e, env.retrieve = .error e)) := by
  unfold get_or_create_agent
  by_cases hid : optStrTruthy env.agent_id = true
  · by_cases hf : env.force_create = true
    · rw [hf]
      simp [hid, hf]
    · have hf2 : env.force_create = false := by
        cases h : env.force_create
        · rfl
        · exact absurd h hf
      rw [hid, hf2]
      cases henv : env.retrieve with
      | ok a => simp [hid, hf2, henv]
      | error e => simp [hid, hf2, henv]
  · have hid2 : optStrTruthy env.agent_id = false := by
      cases h : optStrTruthy env.agent_id
      · rfl
      · exact absurd h hid
    rw [hid2]
    simp [hid2]

/-- C8 witness: with AGENT_ID set and retrieval succeeding, the retrieved
agent is returned and nothing is created. -/
theorem get_or_create_agent_spec_witness :
    (get_or_create_agent
        { agent_id := some "agent-1", force_create := false,
          retrieve := .ok { id := "agent-1", name := "n", model := "m" },
          created := { id := "agent-2", name := "n2", model := "m2" } }).agent
      = { id := "agent-1", name := "n", model := "m" }
    ∧ (get_or_create_agent
        { agent_id := some "agent-1", force_create := false,
          retrieve := .ok { id := "agent-1", name := "n", model := "m" },
          created := { id := "agent-2", name := "n2", model := "m2" } }).created
      = false := by
  exact ((get_or_create_agent_spec
    { agent_id := some "agent-1", force_create := false,
      retrieve := .ok { id := "agent-1", name := "n", model := "m" },
      created := { id := "agent-2", name := "n2", model := "m2" } }).1
    (by rfl) rfl).2 _ rfl

/-- C5: execute_mcp_tool never propagates an exception - it is a total
function of its environment - and returns a dict with an "error" key when
token acquisition raises, when the POST raises, on HTTP 401, 403 and any
other non-200 status, on an unparseable body, on a body whose membership
test raises, and on a JSON-RPC reply carrying an "error" field; when the
reply carries a "result" dict whose "content" is a non-empty list whose
first element is a dict with a string "text" field, exactly that text
string is returned. -/
theorem execute_mcp_tool_spec (env : ExecEnv) :
    (∀ e, env.token = .error e →
      execute_mcp_tool env = errObj ("Execution failed: " ++ e))
    ∧ (∀ tok e, env.token = .ok tok → env.post = .error e →
      execute_mcp_tool env = errObj ("Execution failed: " ++ e))
    ∧ (∀ tok r, env.token = .ok tok → env.post = .ok r → r.status_code = 401 →
      execute_mcp_tool env = errObj "Authentication failed - invalid or expired token")
    ∧ (∀ tok r, env.token = .ok tok → env.post = .ok r → r.status_code = 403 →
      execute_mcp_tool env
        = errObj "Authorization failed - user does not have required permissions")
    ∧ (∀ tok r, env.token = .ok tok → env.post = .ok r → r.status_code ≠ 200 →
      hasErrorKey (execute_mcp_tool env) = true)
    ∧ (∀ tok r e, env.token = .ok tok → env.post = .ok r → r.status_code = 200 →
      r.jsonBody = .error e →
      execute_mcp_tool env = errObj ("Invalid JSON response: " ++ e))
    ∧ (∀ tok r data e, env.token = .ok tok → env.post = .ok r → r.status_code = 200 →
      r.jsonBody = .ok data → pyContains data "error" = .error e →
      execute_mcp_tool env = errObj ("Execution failed: " ++ e))
    ∧ (∀ tok r data, env.token = .ok tok → env.post = .ok r → r.status_code = 200 →
      r.jsonBody = .ok data → pyContains data "error" = .ok true →
      hasErrorKey (execute_mcp_tool env) = true)
    ∧ (∀ tok r fields rfields cfields cs s, env.token = .ok tok → env.post = .ok r →
      r.status_code = 200 → r.jsonBody = .ok (.obj fields) →
      lookupFirst fields "error" = none →
      lookupFirst fields "result" = some (.obj rfields) →
      lookupFirst rfields "content" = some (.arr (.obj cfields :: cs)) →
      lookupFirst cfields "text" = some (.str s) →
      execute_mcp_tool env = .str s) := by
  refine ⟨?_, ?_, ?_, ?_, ?_, ?_, ?_, ?_, ?_⟩
  · intro e ht
    unfold execute_mcp_tool
    rw [ht]
  · intro tok e ht hp
    unfold execute_mcp_tool
    rw [ht, hp]
  · intro tok r ht hp h401
    unfold execute_mcp_tool
    rw [ht, hp]
    simp [h401]
  · intro tok r ht hp h403
    unfold execute_mcp_tool
    rw [ht, hp]
    simp [h403]
  · intro tok r ht hp h200
    unfold execute_mcp_tool
    rw [ht, hp]
    by_cases h401 : r.status_code = 401
    · simp [h401, errObj, hasErrorKey, lookupFirst]
    · by_cases h403 : r.status_code = 403
      · simp [h401, h403, errObj, hasErrorKey, lookupFirst]
      · simp [h401, h403, h200, errObj, hasErrorKey, lookupFirst]
  · intro tok r e ht hp h200 hjson
    unfold execute_mcp_tool
    rw [ht, hp]
    simp [h200, hjson]
  · intro tok r data e ht hp h200 hjson hmem
    unfold execute_mcp_tool
    rw [ht, hp]
    simp [h200, hjson, hmem]
  · intro tok r data ht hp h200 hjson hmem
    unfold execute_mcp_tool
    rw [ht, hp]
    simp only [h200, hjson, hmem]
    cases hsub : pySubscript data "error" with
    | ok errorInfo =>
      cases errorInfo <;> simp [jsonRpcErrorReply, errObj, hasErrorKey, lookupFirst]
    | error e =>
      simp [errObj, hasErrorKey, lookupFirst]
  · intro tok r fields rfields cfields cs s ht hp h200 hjson herr hres hcont htext
    unfold execute_mcp_tool
    rw [ht, hp]
    simp [h200, hjson, pyContains, pySubscript, unwrapResult, herr, hres, hcont, htext]

/-- C5 witness: an HTTP 401 reply yields the authentication error dict. -/
theorem execute_mcp_tool_spec_witness :
    execute_mcp_tool
        { token := .ok "t",
          post := .ok { status_code := 401, text := "", jsonBody := .error "x" } }
      = errObj "Authentication failed - invalid or expired token" := by
  exact (execute_mcp_tool_spec
    { token := .ok "t",
      post := .ok { status_code := 401, text := "", jsonBody := .error "x" } }).2.2.1
    "t" { status_code := 401, text := "", jsonBody := .error "x" } rfl rfl rfl

/-- C9 counterexample: on the top-level list whose sole element is the
string "tools", the membership guard of the first format matches, the
following subscript raises the caught TypeError, and the empty list is
returned instead of the list entries the claimed shape order promises. -/
theorem extract_tools_from_response_cx :
    extract_tools_from_response (.arr [.str "tools"]) = []
    ∧ extract_tools_from_response (.arr [.str "tools"]) ≠ [JsonVal.str "tools"] := by
  have h0 : extract_tools_from_response (.arr [.str "tools"]) = [] := by
    unfold extract_tools_from_response
    rfl
  refine ⟨h0, ?_⟩
  intro h
  rw [h0] at h
  exact List.noConfusion h

/-- C9 amended: extract_tools_from_response is total and returns, for a
dict, the collected entries of its "tools" list, else of the "tools" list
of its "capabilities" dict (the empty list once a "capabilities" dict
without such a list commits the chain), else the recursive extraction of
its "result" value; for a top-level list the collected entries unless the
list contains "tools" or "capabilities" as a string element, in which case
the caught TypeError yields the empty list; and the empty list for every
other value. -/
theorem extract_tools_from_response_spec (data : JsonVal) :
    (∀ fields xs, data = .obj fields →
      lookupFirst fields "tools" = some (.arr xs) →
      extract_tools_from_response data = collectNames xs)
    ∧ (∀ fields caps xs, data = .obj fields →
        (∀ ys, lookupFirst fields "tools" ≠ some (.arr ys)) →
        lookupFirst fields "capabilities" = some (.obj caps) →
        lookupFirst caps "tools" = some (.arr xs) →
        extract_tools_from_response data = collectNames xs)
    ∧ (∀ fields caps, data = .obj fields →
        (∀ ys, lookupFirst fields "tools" ≠ some (.arr ys)) →
        lookupFirst fields "capabilities" = some (.obj caps) →
        (∀ ys, lookupFirst caps "tools" ≠ some (.arr ys)) →
        extract_tools_from_response data = [])
    ∧ (∀ fields v, data = .obj fields →
        (∀ ys, lookupFirst fields "tools" ≠ some (.arr ys)) →
        (∀ cs, lookupFirst fields "capabilities" ≠ some (.obj cs)) →
        lookupFirst fields "result" = some v →
        extract_tools_from_response data = extract_tools_from_response v)
    ∧ (∀ xs, data = .arr xs → listHasStr xs "tools" = false →
        listHasStr xs "capabilities" = false →
        extract_tools_from_response data = collectNames xs)
    ∧ (∀ xs, data = .arr xs →
        (listHasStr xs "tools" = true ∨ listHasStr xs "capabilities" = true) →
        extract_tools_from_response data = [])
    ∧ (∀ s, data = .str s → extract_tools_from_response data = [])
    ∧ ((data = .null ∨ (∃ b, data = .bool b) ∨ (∃ n, data = .num n)) →
        extract_tools_from_response data = []) := by
  refine ⟨?_, ?_, ?_, ?_, ?_, ?_, ?_, ?_⟩
  · intro fields xs hdata htools
    subst hdata
    unfold extract_tools_from_response
    simp only [htools]
  · intro fields caps xs hdata htoolsne hcap hcaps
    subst hdata
    unfold extract_tools_from_response
    split
    · next xs2 heq => exact absurd heq (htoolsne xs2)
    · simp only [hcap, hcaps]
  · intro fields caps hdata htoolsne hcap hcapsne
    subst hdata
    unfold extract_tools_from_response
    split
    · next xs2 heq => exact absurd heq (htoolsne xs2)
    · simp only [hcap]
  · intro fields v hdata htoolsne hcapne hres
    subst hdata
    rw [extract_tools_from_response.eq_def (JsonVal.obj fields)]
    simp only []
    split
    · next v2 heq2 =>
      rw [hres] at heq2
      cases heq2
      rfl
    · next heq2 =>
      rw [hres] at heq2
      cases heq2
  · intro xs hdata h1 h2
    subst hdata
    unfold extract_tools_from_response
    simp [h1, h2]
  · intro xs hdata h
    subst hdata
    unfold extract_tools_from_response
    rcases h with h | h
    · simp [h]
    · simp [h]
  · intro s hdata
    subst hdata
    unfold extract_tools_from_response
    rfl
  · intro h
    rcases h with h | ⟨b, h⟩ | ⟨n, h⟩ <;> subst h <;>
      (unfold extract_tools_from_response; rfl)

/-- C9 amended witness: a dict with a "tools" list of mixed entries yields
the name fields of its dict entries and its string entries. -/
theorem extract_tools_from_response_spec_witness :
    extract_tools_from_response
        (.obj [("tools", .arr [.obj [("name", .str "a")], .str "b"])])
      = collectNames [.obj [("name", .str "a")], .str "b"]
    ∧ collectNames [.obj [("name", .str "a")], .str "b"]
      = [JsonVal.str "a", JsonVal.str "b"] := by
  exact ⟨(extract_tools_from_response_spec
    (.obj [("tools", .arr [.obj [("name", .str "a")], .str "b"])])).1
    [("tools", .arr [.obj [("name", .str "a")], .str "b"])]
    [.obj [("name", .str "a")], .str "b"] rfl rfl, rfl⟩

/-- C7: discover_mcp_tools falls back to the fixed eight MSSQL tool names
when the access token cannot be obtained; otherwise it returns the first
non-empty result among the JSON-RPC tools/list probe and the four REST
endpoint probes, tried in that fixed order, falling back when all five
yield nothing; in every case the returned list is non-empty, and the
function is total. -/
theorem discover_mcp_tools_spec (env : DiscoverEnv) :
    (∀ e, env.token = .error e → discover_mcp_tools env = fallback_tools)
    ∧ (∀ tok, env.token = .ok tok → jsonrpcCandidate env ≠ [] →
        discover_mcp_tools env = jsonrpcCandidate env)
    ∧ (∀ tok, env.token = .ok tok → jsonrpcCandidate env = [] →
        restCandidate env 0 ≠ [] →
        discover_mcp_tools env = restCandidate env 0)
    ∧ (∀ tok, env.token = .ok tok → jsonrpcCandidate env = [] →
        restCandidate env 0 = [] → restCandidate env 1 ≠ [] →
        discover_mcp_tools env = restCandidate env 1)
    ∧ (∀ tok, env.token = .ok tok → jsonrpcCandidate env = [] →
        restCandidate env 0 = [] → restCandidate env 1 = [] →
        restCandidate env 2 ≠ [] →
        discover_mcp_tools env = restCandidate env 2)
    ∧ (∀ tok, env.token = .ok tok → jsonrpcCandidate env = [] →
        restCandidate env 0 = [] → restCandidate env 1 = [] →
        restCandidate env 2 = [] → restCandidate env 3 ≠ [] →
        discover_mcp_tools env = restCandidate env 3)
    ∧ (∀ tok, env.token = .ok tok → jsonrpcCandidate env = [] →
        restCandidate env 0 = [] → restCandidate env 1 = [] →
        restCandidate env 2 = [] → restCandidate env 3 = [] →
        discover_mcp_tools env = fallback_tools)
    ∧ discover_mcp_tools env ≠ [] := by
  cases htok : env.token with
  | error e =>
    have hd : discover_mcp_tools env = fallback_tools := by
      unfold discover_mcp_tools
      rw [htok]
    refine ⟨fun _ _ => hd, ?_, ?_, ?_, ?_, ?_, ?_, ?_⟩
    all_goals try (intro tok heq; exact Except.noConfusion heq)
    rw [hd]
    simp [fallback_tools]
  | ok tok =>
    have hd : discover_mcp_tools env
        = (if !(jsonrpcCandidate env).isEmpty then jsonrpcCandidate env
           else if !(restCandidate env 0).isEmpty then restCandidate env 0
           else if !(restCandidate env 1).isEmpty then restCandidate env 1
           else if !(restCandidate env 2).isEmpty then restCandidate env 2
           else if !(restCandidate env 3).isEmpty then restCandidate env 3
           else fallback_tools) := by
      unfold discover_mcp_tools
      rw [htok]
    refine ⟨?_, ?_, ?_, ?_, ?_, ?_, ?_, ?_⟩
    · intro e habs
      exact Except.noConfusion habs
    · intro _ _ h0
      rw [hd, if_pos (by simp [h0])]
    · intro _ _ h0 h1
      rw [hd, if_neg (by simp [h0]), if_pos (by simp [h1])]
    · intro _ _ h0 h1 h2
      rw [hd, if_neg (by simp [h0]), if_neg (by simp [h1]), if_pos (by simp [h2])]
    · intro _ _ h0 h1 h2 h3
      rw [hd, if_neg (by simp [h0]), if_neg (by simp [h1]), if_neg (by simp [h2]),
        if_pos (by simp [h3])]
    · intro _ _ h0 h1 h2 h3 h4
      rw [hd, if_neg (by simp [h0]), if_neg (by simp [h1]), if_neg (by simp [h2]),
        if_neg (by simp [h3]), if_pos (by simp [h4])]
    · intro _ _ h0 h1 h2 h3 h4
      rw [hd, if_neg (by simp [h0]), if_neg (by simp [h1]), if_neg (by simp [h2]),
        if_neg (by simp [h3]), if_neg (by simp [h4])]
    · rw [hd]
      by_cases h0 : jsonrpcCandidate env = []
      · by_cases h1 : restCandidate env 0 = []
        · by_cases h2 : restCandidate env 1 = []
          · by_cases h3 : restCandidate env 2 = []
            · by_cases h4 : restCandidate env 3 = []
              · rw [if_neg (by simp [h0]), if_neg (by simp [h1]),
                  if_neg (by simp [h2]), if_neg (by simp [h3]), if_neg (by simp [h4])]
                intro habs
                exact List.noConfusion habs
              · rw [if_neg (by simp [h0]), if_neg (by simp [h1]),
                  if_neg (by simp [h2]), if_neg (by simp [h3]), if_pos (by simp [h4])]
                exact h4
            · rw [if_neg (by simp [h0]), if_neg (by simp [h1]),
                if_neg (by simp [h2]), if_pos (by simp [h3])]
              exact h3
          · rw [if_neg (by simp [h0]), if_neg (by simp [h1]), if_pos (by simp [h2])]
            exact h2
        · rw [if_neg (by simp [h0]), if_pos (by simp [h1])]
          exact h1
      · rw [if_pos (by simp [h0])]
        exact h0

/-- C7 witness: when the token cannot be obtained, the fallback list of
eight MSSQL tool names is returned, and it is non-empty. -/
theorem discover_mcp_tools_spec_witness :
    discover_mcp_tools
        { token := .error "no token", jsonrpc := .error "down",
          rest := fun _ => .error "down" }
      = fallback_tools
    ∧ fallback_tools.length = 8 := by
  exact ⟨(discover_mcp_tools_spec
    { token := .error "no token", jsonrpc := .error "down",
      rest := fun _ => .error "down" }).1 "no token" rfl, rfl⟩

theorem driveStep_next_iteration (env : DriveEnv) (st st2 : LoopState)
    (evs : List LoopEvent) (h : driveStep env st = .next st2 evs) :
    st2.iteration = st.iteration + 1 := by
  simp only [driveStep, afterHandle] at h
  repeat' split at h
  all_goals first
    | exact StepOut.noConfusion h
    | (cases h; simp)

theorem driveStep_stop_kinds (env : DriveEnv) (st : LoopState) (ex : DriveExit)
    (evs : List LoopEvent) (h : driveStep env st = .stop ex evs) :
    (∀ r, ex ≠ .completed r) ∧ (∀ s, ex ≠ .fuelOut s) := by
  simp only [driveStep, afterHandle] at h
  repeat' split at h
  all_goals first
    | exact StepOut.noConfusion h
    | (cases h <;> exact ⟨fun r hr => DriveExit.noConfusion hr,
        fun s hs => DriveExit.noConfusion hs⟩)

theorem driveStep_timeout_trigger (env : DriveEnv) (st : LoopState)
    (h : env.times (st.iteration + 1) - env.time0 > env.timeout_seconds) :
    driveStep env st
      = .stop (.timedOut st.run (env.times (st.iteration + 1))) [.cancelEv] := by
  simp only [driveStep]
  rw [if_pos h]
  cases env.cancel <;> rfl

theorem driveStep_timedOut_inv (env : DriveEnv) (st : LoopState) (r : Run) (t : Int)
    (evs : List LoopEvent) (h : driveStep env st = .stop (.timedOut r t) evs) :
    r = st.run ∧ t = env.times (st.iteration + 1)
    ∧ t - env.time0 > env.timeout_seconds ∧ evs = [.cancelEv] := by
  simp only [driveStep, afterHandle] at h
  repeat' split at h
  all_goals first
    | exact StepOut.noConfusion h
    | (cases h <;> exact ⟨rfl, rfl, by assumption, rfl⟩)

theorem driveStep_fetchFailed_inv (env : DriveEnv) (st : LoopState) (r : Run)
    (evs : List LoopEvent) (h : driveStep env st = .stop (.fetchFailed r) evs) :
    r = st.run := by
  simp only [driveStep, afterHandle] at h
  repeat' split at h
  all_goals first
    | exact StepOut.noConfusion h
    | (cases h <;> rfl)

theorem driveStep_countCancel_timedOut (env : DriveEnv) (st : LoopState) (r : Run)
    (t : Int) (evs : List LoopEvent) (h : driveStep env st = .stop (.timedOut r t) evs) :
    countCancel evs = 1 := by
  rw [(driveStep_timedOut_inv env st r t evs h).2.2.2]
  rfl

theorem driveStep_countCancel_next (env : DriveEnv) (st st2 : LoopState)
    (evs : List LoopEvent) (h : driveStep env st = .next st2 evs) :
    countCancel evs = 0 := by
  simp only [driveStep, afterHandle] at h
  repeat' split at h
  all_goals first
    | exact StepOut.noConfusion h
    | (cases h <;> simp [countCancel])

theorem driveStep_countCancel_stop (env : DriveEnv) (st : LoopState) (ex : DriveExit)
    (evs : List LoopEvent) (h : driveStep env st = .stop ex evs)
    (hne : ∀ r t, ex ≠ .timedOut r t) :
    countCancel evs = 0 := by
  simp only [driveStep, afterHandle] at h
  repeat' split at h
  all_goals first
    | exact StepOut.noConfusion h
    | (cases h <;> first
        | exact absurd rfl (hne _ _)
        | simp [countCancel])

theorem driveStep_cancel_congr (env : DriveEnv) (st : LoopState)
    (c : Except String Unit) :
    driveStep { env with cancel := c } st = driveStep env st := by
  unfold driveStep afterHandle
  cases c <;> cases env.cancel <;> rfl

theorem driveStep_approvalsEv_inv (env : DriveEnv) (st : LoopState)
    (cs : List ToolCall) (aps : List ToolApproval)
    (h : LoopEvent.approvalsEv cs aps ∈ (driveStep env st).events) :
    ∃ auth, aps = gatherApprovals auth cs := by
  simp only [driveStep, afterHandle] at h
  repeat' split at h
  all_goals simp only [StepOut.events] at h
  all_goals simp at h
  all_goals obtain ⟨h1, h2⟩ := h
  all_goals subst h1
  all_goals exact ⟨_, h2⟩

theorem driveStep_outputsEv_inv (env : DriveEnv) (st : LoopState)
    (cs : List ToolCall) (outs : List ToolOutput)
    (h : LoopEvent.outputsEv cs outs ∈ (driveStep env st).events) :
    ∃ k, outs = (gatherOutputs env.execTool k cs).1 := by
  simp only [driveStep, afterHandle] at h
  repeat' split at h
  all_goals simp only [StepOut.events] at h
  all_goals simp at h
  all_goals obtain ⟨h1, h2⟩ := h
  all_goals subst h1
  all_goals exact ⟨_, h2⟩

theorem driveStep_approvals_submitted (env : DriveEnv) (st : LoopState)
    (out : StepOut) (hstep : driveStep env st = out)
    (cs : List ToolCall) (aps : List ToolApproval)
    (h : LoopEvent.approvalsEv cs aps ∈ out.events)
    (hne : aps ≠ []) :
    LoopEvent.submitApprovalsEv aps ∈ out.events := by
  simp only [driveStep, afterHandle] at hstep
  repeat' split at hstep
  all_goals subst hstep
  all_goals simp only [StepOut.events] at h ⊢
  all_goals simp at h
  all_goals obtain ⟨h1, h2⟩ := h
  all_goals subst h2
  all_goals first
    | (exfalso
       simp_all [List.isEmpty_iff]
       done)
    | simp

theorem driveStep_outputs_submitted (env : DriveEnv) (st : LoopState)
    (out : StepOut) (hstep : driveStep env st = out)
    (cs : List ToolCall) (outsv : List ToolOutput)
    (h : LoopEvent.outputsEv cs outsv ∈ out.events)
    (hne : outsv ≠ []) :
    LoopEvent.submitOutputsEv outsv ∈ out.events := by
  simp only [driveStep, afterHandle] at hstep
  repeat' split at hstep
  all_goals subst hstep
  all_goals simp only [StepOut.events] at h ⊢
  all_goals simp at h
  all_goals obtain ⟨h1, h2⟩ := h
  all_goals subst h2
  all_goals first
    | (exfalso
       simp_all [List.isEmpty_iff]
       done)
    | simp

theorem driveLoop_trace_inv (env : DriveEnv) (P : LoopEvent → Prop)
    (hstep : ∀ st ev, ev ∈ (driveStep env st).events → P ev) :
    ∀ fuel st ev, ev ∈ (driveLoop env fuel st).2 → P ev := by
  intro fuel
  induction fuel with
  | zero =>
    intro st ev h
    simp [driveLoop] at h
  | succ n ih =>
    intro st ev h
    unfold driveLoop at h
    by_cases hnt : nonTerminal st.run.status = true
    · rw [if_pos hnt] at h
      cases hstepcase : driveStep env st with
      | next st2 evs =>
        rw [hstepcase] at h
        simp only [List.mem_append] at h
        rcases h with h | h
        · exact hstep st ev (by rw [hstepcase]; exact h)
        · exact ih st2 ev h
      | stop ex evs =>
        rw [hstepcase] at h
        exact hstep st ev (by rw [hstepcase]; exact h)
    · rw [if_neg hnt] at h
      simp at h

theorem driveLoop_mem_mono (env : DriveEnv) (a b : LoopEvent)
    (hstep : ∀ st, a ∈ (driveStep env st).events → b ∈ (driveStep env st).events) :
    ∀ fuel st, a ∈ (driveLoop env fuel st).2 → b ∈ (driveLoop env fuel st).2 := by
  intro fuel
  induction fuel with
  | zero =>
    intro st h
    simp [driveLoop] at h
  | succ n ih =>
    intro st h
    unfold driveLoop at h ⊢
    by_cases hnt : nonTerminal st.run.status = true
    · rw [if_pos hnt] at h ⊢
      cases hstepcase : driveStep env st with
      | next st2 evs =>
        rw [hstepcase] at h
        simp only [] at h ⊢
        simp only [List.mem_append] at h ⊢
        rcases h with h | h
        · refine Or.inl ?_
          have hs : a ∈ (driveStep env st).events := by
            rw [hstepcase]
            exact h
          have hb := hstep st hs
          rw [hstepcase] at hb
          exact hb
        · exact Or.inr (ih st2 h)
      | stop ex evs =>
        rw [hstepcase] at h
        simp only [] at h ⊢
        have hs : a ∈ (driveStep env st).events := by
          rw [hstepcase]
          exact h
        have hb := hstep st hs
        rw [hstepcase] at hb
        exact hb
    · rw [if_neg hnt] at h
      simp at h

theorem countCancel_append (a b : List LoopEvent) :
    countCancel (a ++ b) = countCancel a + countCancel b := by
  induction a with
  | nil => simp [countCancel]
  | cons ev rest ih =>
    cases ev <;> simp [countCancel, ih] <;> omega

theorem driveLoop_exit_inv (env : DriveEnv) :
    ∀ fuel st,
    (∀ r, (driveLoop env fuel st).1 = .completed r → nonTerminal r.status = false)
    ∧ (∀ r t, (driveLoop env fuel st).1 = .timedOut r t →
        nonTerminal r.status = true ∧ t - env.time0 > env.timeout_seconds)
    ∧ (∀ r, (driveLoop env fuel st).1 = .fetchFailed r →
        nonTerminal r.status = true) := by
  intro fuel
  induction fuel with
  | zero =>
    intro st
    refine ⟨?_, ?_, ?_⟩ <;> intro r
    · intro habs
      exact DriveExit.noConfusion habs
    · intro t habs
      exact DriveExit.noConfusion habs
    · intro habs
      exact DriveExit.noConfusion habs
  | succ n ih =>
    intro st
    unfold driveLoop
    by_cases hnt : nonTerminal st.run.status = true
    · rw [if_pos hnt]
      cases hstepcase : driveStep env st with
      | next st2 evs =>
        simp only []
        exact ih st2
      | stop ex evs =>
        simp only []
        refine ⟨?_, ?_, ?_⟩
        · intro r habs
          subst habs
          exact absurd rfl ((driveStep_stop_kinds env st _ evs hstepcase).1 r)
        · intro r t habs
          subst habs
          obtain ⟨h1, h2, h3, _⟩ := driveStep_timedOut_inv env st r t evs hstepcase
          subst h1
          subst h2
          exact ⟨hnt, h3⟩
        · intro r habs
          subst habs
          have h1 := driveStep_fetchFailed_inv env st r evs hstepcase
          subst h1
          exact hnt
    · rw [if_neg hnt]
      refine ⟨?_, ?_, ?_⟩
      · intro r habs
        simp only [] at habs
        cases habs
        simp at hnt
        exact hnt
      · intro r t habs
        simp only [] at habs
        exact DriveExit.noConfusion habs
      · intro r habs
        simp only [] at habs
        exact DriveExit.noConfusion habs

theorem driveLoop_terminates (env : DriveEnv) (N : Nat)
    (hmono : Monotone env.times)
    (hN : env.times N > env.time0 + env.timeout_seconds) :
    ∀ fuel st, N ≤ st.iteration + fuel →
      ((driveLoop env (fuel + 1) st).1.isFuelOut = false) := by
  intro fuel
  induction fuel with
  | zero =>
    intro st hle
    unfold driveLoop
    by_cases hnt : nonTerminal st.run.status = true
    · rw [if_pos hnt]
      have htime : env.times (st.iteration + 1) - env.time0 > env.timeout_seconds := by
        have h1 : env.times N ≤ env.times (st.iteration + 1) := hmono (by omega)
        omega
      rw [driveStep_timeout_trigger env st htime]
      rfl
    · rw [if_neg hnt]
      rfl
  | succ n ih =>
    intro st hle
    unfold driveLoop
    by_cases hnt : nonTerminal st.run.status = true
    · rw [if_pos hnt]
      cases hstepcase : driveStep env st with
      | next st2 evs =>
        simp only []
        have hit := driveStep_next_iteration env st st2 evs hstepcase
        exact ih st2 (by omega)
      | stop ex evs =>
        simp only []
        cases ex with
        | fuelOut s =>
          exact absurd rfl ((driveStep_stop_kinds env st _ evs hstepcase).2 s)
        | completed r => rfl
        | timedOut r t => rfl
        | fetchFailed r => rfl
        | raised => rfl
    · rw [if_neg hnt]
      rfl

theorem driveLoop_countCancel (env : DriveEnv) :
    ∀ fuel st,
    (∀ r t, (driveLoop env fuel st).1 = .timedOut r t →
      countCancel (driveLoop env fuel st).2 = 1)
    ∧ ((∀ r t, (driveLoop env fuel st).1 ≠ .timedOut r t) →
      countCancel (driveLoop env fuel st).2 = 0) := by
  intro fuel
  induction fuel with
  | zero =>
    intro st
    refine ⟨?_, ?_⟩
    · intro r t habs
      exact DriveExit.noConfusion habs
    · intro _
      rfl
  | succ n ih =>
    intro st
    unfold driveLoop
    by_cases hnt : nonTerminal st.run.status = true
    · rw [if_pos hnt]
      cases hstepcase : driveStep env st with
      | next st2 evs =>
        simp only []
        have hevs := driveStep_countCancel_next env st st2 evs hstepcase
        refine ⟨?_, ?_⟩
        · intro r t hexit
          rw [countCancel_append, hevs, (ih st2).1 r t hexit]
        · intro hne
          rw [countCancel_append, hevs, (ih st2).2 hne]
      | stop ex evs =>
        simp only []
        refine ⟨?_, ?_⟩
        · intro r t hexit
          subst hexit
          exact driveStep_countCancel_timedOut env st r t evs hstepcase
        · intro hne
          exact driveStep_countCancel_stop env st ex evs hstepcase hne
    · rw [if_neg hnt]
      refine ⟨?_, ?_⟩
      · intro r t habs
        simp only [] at habs
        exact DriveExit.noConfusion habs
      · intro _
        rfl

theorem driveLoop_cancel_congr (env : DriveEnv) (c : Except String Unit) :
    ∀ fuel st, driveLoop { env with cancel := c } fuel st = driveLoop env fuel st := by
  intro fuel
  induction fuel with
  | zero =>
    intro st
    rfl
  | succ n ih =>
    intro st
    unfold driveLoop
    rw [driveStep_cancel_congr env st c]
    by_cases hnt : nonTerminal st.run.status = true
    · rw [if_pos hnt, if_pos hnt]
      cases driveStep env st with
      | next st2 evs =>
        simp only []
        rw [ih st2]
      | stop ex evs =>
        simp only []
    · rw [if_neg hnt, if_neg hnt]

theorem gatherApprovals_covers (auth : Option (List (String × String)))
    (cs : List ToolCall) (c : ToolCall) (hc : c ∈ cs) (hmcp : c.isMcp = true) :
    ∃ a ∈ gatherApprovals auth cs, a.tool_call_id = c.id ∧ a.approve = true := by
  induction cs with
  | nil => cases hc
  | cons c0 rest ih =>
    cases hc with
    | head =>
      refine ⟨{ tool_call_id := c.id, approve := true, headers := auth }, ?_, rfl, rfl⟩
      unfold gatherApprovals
      rw [if_pos hmcp]
      exact List.mem_cons_self _ _
    | tail _ htail =>
      obtain ⟨a, hmem, hid, happ⟩ := ih htail
      refine ⟨a, ?_, hid, happ⟩
      unfold gatherApprovals
      by_cases h0 : c0.isMcp = true
      · rw [if_pos h0]
        exact List.mem_cons_of_mem _ hmem
      · rw [if_neg h0]
        exact hmem

theorem gatherOutputs_covers (execTool : Nat → JsonVal) (cs : List ToolCall)
    (c : ToolCall) (hc : c ∈ cs) (hmcp : c.isMcp = true) :
    ∀ k, ∃ o ∈ (gatherOutputs execTool k cs).1, o.tool_call_id = c.id := by
  induction cs with
  | nil => cases hc
  | cons c0 rest ih =>
    intro k
    cases hc with
    | head =>
      refine ⟨{ tool_call_id := c.id, output := execTool k }, ?_, rfl⟩
      unfold gatherOutputs
      rw [if_pos hmcp]
      exact List.mem_cons_self _ _
    | tail _ htail =>
      unfold gatherOutputs
      by_cases h0 : c0.isMcp = true
      · rw [if_pos h0]
        obtain ⟨o, hmem, hid⟩ := ih htail (k + 1)
        exact ⟨o, List.mem_cons_of_mem _ hmem, hid⟩
      · rw [if_neg h0]
        exact ih htail k

/-- C1: once the clock passes start plus the timeout (times are monotone
and some reading exceeds it), drive_until_complete terminates within a
computable iteration bound - the fuelled loop never exhausts its fuel -
and every normal return is one of the three claimed causes: a completed
exit carries a status outside the non-terminal set, a timedOut exit occurs
only with a still non-terminal status once elapsed time exceeded the
timeout, and a fetchFailed exit (the guarded fetch raised) carries the
still non-terminal run; the only other outcome is the raised marker, an
exception propagating from an unguarded SDK call, which is not a return. -/
theorem drive_until_complete_terminates (env : DriveEnv) (run0 : Run) (N fuel : Nat)
    (hmono : Monotone env.times)
    (hN : env.times N > env.time0 + env.timeout_seconds)
    (hfuel : N ≤ fuel) :
    ((drive_until_complete env run0 (fuel + 1)).1.isFuelOut = false)
    ∧ (∀ r, (drive_until_complete env run0 (fuel + 1)).1 = .completed r →
        nonTerminal r.status = false)
    ∧ (∀ r t, (drive_until_complete env run0 (fuel + 1)).1 = .timedOut r t →
        nonTerminal r.status = true ∧ t - env.time0 > env.timeout_seconds)
    ∧ (∀ r, (drive_until_complete env run0 (fuel + 1)).1 = .fetchFailed r →
        nonTerminal r.status = true) := by
  have h1 := driveLoop_terminates env N hmono hN fuel (initState run0)
    (by simp [initState]; omega)
  have h2 := driveLoop_exit_inv env (fuel + 1) (initState run0)
  exact ⟨h1, h2.1, h2.2.1, h2.2.2⟩

/-- C1 witness: a queued run whose first fetch is terminal exits without
exhausting fuel, returning the completed run. -/
theorem drive_until_complete_terminates_witness :
    ((drive_until_complete (sampleEnv runCompleted) runQueued 122).1.isFuelOut = false)
    ∧ (drive_until_complete (sampleEnv runCompleted) runQueued 122).1
      = DriveExit.completed runCompleted := by
  refine ⟨(drive_until_complete_terminates (sampleEnv runCompleted) runQueued 121 121
    (fun a b hab => Int.ofNat_le.mpr hab) (by decide) (by decide)).1, ?_⟩
  rfl

/-- C2 counterexample: started on a run already demanding an approval, the
first observable action of drive_until_complete is handling the action,
not the sleep the claimed per-iteration order sleep-fetch-handle requires. -/
theorem drive_until_complete_order_cx :
    (drive_until_complete (sampleEnv runCompleted) runApproval 3).2.head?
      = some (LoopEvent.approvalsEv [mcpCall]
          [{ tool_call_id := "call_1", approve := true,
             headers := some [("Authorization", "Bearer tok")] }])
    ∧ (drive_until_complete (sampleEnv runCompleted) runApproval 3).2.head?
      ≠ some LoopEvent.sleepEv := by
  have h0 : (drive_until_complete (sampleEnv runCompleted) runApproval 3).2.head?
      = some (LoopEvent.approvalsEv [mcpCall]
          [{ tool_call_id := "call_1", approve := true,
             headers := some [("Authorization", "Bearer tok")] }]) := rfl
  refine ⟨h0, ?_⟩
  intro h
  rw [h0] at h
  exact LoopEvent.noConfusion (Option.some.inj h)

/-- C2 amended: within the timeout window, an iteration whose status is
not requires_action sleeps and then fetches exactly; an iteration whose
status is requires_action never sleeps, handles its required action
(emitting the gathered approvals for an approval action, the executed
outputs for an outputs action) and, whenever the iteration continues, its
events end with the fetch of the next status. -/
theorem driveStep_order_spec (env : DriveEnv) (st : LoopState)
    (hwithin : ¬ env.times (st.iteration + 1) - env.time0 > env.timeout_seconds) :
    (st.run.status ≠ "requires_action" →
      (driveStep env st).events
        = [LoopEvent.sleepEv, LoopEvent.fetchEv (env.fetch st.nFetch)])
    ∧ (st.run.status = "requires_action" →
        LoopEvent.sleepEv ∉ (driveStep env st).events
        ∧ (∀ st2 evs, driveStep env st = .next st2 evs →
            ∃ pre r, evs = pre ++ [LoopEvent.fetchEv (.ok r)])
        ∧ (∀ tcs, st.run.required_action = some (.approval tcs) →
            ∃ auth, LoopEvent.approvalsEv (tcs.getD [])
              (gatherApprovals auth (tcs.getD [])) ∈ (driveStep env st).events)
        ∧ (∀ tcs, st.run.required_action = some (.outputs tcs) →
            LoopEvent.outputsEv (tcs.getD [])
              (gatherOutputs env.execTool st.nExec (tcs.getD [])).1
              ∈ (driveStep env st).events)) := by
  refine ⟨?_, ?_⟩
  · intro hne
    simp only [driveStep]
    rw [if_neg hwithin, if_pos hne]
    cases env.fetch st.nFetch <;> rfl
  · intro hra
    have hnn : ¬ st.run.status ≠ "requires_action" := fun hn => hn hra
    refine ⟨?_, ?_, ?_, ?_⟩
    · simp only [driveStep, afterHandle]
      rw [if_neg hwithin, if_neg hnn]
      repeat' split
      all_goals simp [StepOut.events]
    · intro st2 evs hstep
      simp only [driveStep, afterHandle] at hstep
      repeat' split at hstep
      all_goals first
        | exact StepOut.noConfusion hstep
        | (cases hstep <;> exact ⟨[LoopEvent.sleepEv], _, rfl⟩)
        | (cases hstep <;> exact ⟨_, _, rfl⟩)
    · intro tcs hact
      simp only [driveStep, afterHandle]
      rw [if_neg hwithin, if_neg hnn, hact]
      simp only []
      repeat' split
      all_goals simp only [StepOut.events]
      all_goals first
        | exact ⟨_, List.mem_append_left _ (List.mem_cons_self _ _)⟩
        | exact ⟨_, List.mem_cons_self _ _⟩
    · intro tcs hact
      simp only [driveStep, afterHandle]
      rw [if_neg hwithin, if_neg hnn, hact]
      simp only []
      repeat' split
      all_goals simp only [StepOut.events]
      all_goals first
        | exact List.mem_append_left _ (List.mem_cons_self _ _)
        | exact List.mem_cons_self _ _

/-- C2 amended witness: a queued iteration of the benign environment
sleeps and then fetches, in that order and nothing else. -/
theorem driveStep_order_spec_witness :
    (driveStep (sampleEnv runCompleted) (initState runQueued)).events
      = [LoopEvent.sleepEv, LoopEvent.fetchEv (.ok runCompleted)] :=
  (driveStep_order_spec (sampleEnv runCompleted) (initState runQueued)
    (by decide)).1 (by decide)

/-- C3 counterexample: an approval action carrying one tool call of a
class other than RequiredMcpToolCall is required, yet no approval at all
is submitted for it - the gathered approvals are empty, nothing is
submitted, and the run is simply re-fetched - refuting that every carried
tool call is approved. -/
theorem drive_until_complete_skips_non_mcp_cx :
    (drive_until_complete (sampleEnv runCompleted) runApprovalFn 3).2
      = [LoopEvent.approvalsEv [fnCall] [],
         LoopEvent.fetchEv (.ok runCompleted)]
    ∧ approvedIds (drive_until_complete (sampleEnv runCompleted) runApprovalFn 3).2
      = [] := by
  exact ⟨rfl, rfl⟩

/-- C3 amended: whenever the loop handles an approval action, every
RequiredMcpToolCall it carries gets an approval with approve set and that
call id among the gathered approvals, and when any were gathered they are
submitted; whenever it handles an outputs action, every RequiredMcpToolCall
it carries gets an output under its call id, and gathered outputs are
submitted; tool calls of other classes are skipped. -/
theorem drive_until_complete_services_mcp_calls (env : DriveEnv) (run0 : Run)
    (fuel : Nat) :
    (∀ cs aps, LoopEvent.approvalsEv cs aps ∈ (drive_until_complete env run0 fuel).2 →
      (∀ c ∈ cs, c.isMcp = true →
        ∃ a ∈ aps, a.tool_call_id = c.id ∧ a.approve = true)
      ∧ (aps ≠ [] →
          LoopEvent.submitApprovalsEv aps ∈ (drive_until_complete env run0 fuel).2))
    ∧ (∀ cs outs, LoopEvent.outputsEv cs outs ∈ (drive_until_complete env run0 fuel).2 →
      (∀ c ∈ cs, c.isMcp = true → ∃ o ∈ outs, o.tool_call_id = c.id)
      ∧ (outs ≠ [] →
          LoopEvent.submitOutputsEv outs ∈ (drive_until_complete env run0 fuel).2)) := by
  constructor
  · intro cs aps hmem
    constructor
    · have hP := driveLoop_trace_inv env
        (fun ev => ∀ cs2 aps2, ev = LoopEvent.approvalsEv cs2 aps2 →
          ∀ c ∈ cs2, c.isMcp = true →
            ∃ a ∈ aps2, a.tool_call_id = c.id ∧ a.approve = true)
        (by
          intro st ev hev cs2 aps2 heq c hc hmcp
          subst heq
          obtain ⟨auth, haps⟩ := driveStep_approvalsEv_inv env st cs2 aps2 hev
          subst haps
          exact gatherApprovals_covers auth cs2 c hc hmcp)
        fuel (initState run0) _ hmem
      exact hP cs aps rfl
    · intro hne
      exact driveLoop_mem_mono env (LoopEvent.approvalsEv cs aps)
        (LoopEvent.submitApprovalsEv aps)
        (fun st h => driveStep_approvals_submitted env st (driveStep env st) rfl
          cs aps h hne)
        fuel (initState run0) hmem
  · intro cs outs hmem
    constructor
    · have hP := driveLoop_trace_inv env
        (fun ev => ∀ cs2 outs2, ev = LoopEvent.outputsEv cs2 outs2 →
          ∀ c ∈ cs2, c.isMcp = true → ∃ o ∈ outs2, o.tool_call_id = c.id)
        (by
          intro st ev hev cs2 outs2 heq c hc hmcp
          subst heq
          obtain ⟨k, houts⟩ := driveStep_outputsEv_inv env st cs2 outs2 hev
          subst houts
          exact gatherOutputs_covers env.execTool cs2 c hc hmcp k)
        fuel (initState run0) _ hmem
      exact hP cs outs rfl
    · intro hne
      exact driveLoop_mem_mono env (LoopEvent.outputsEv cs outs)
        (LoopEvent.submitOutputsEv outs)
        (fun st h => driveStep_outputs_submitted env st (driveStep env st) rfl
          cs outs h hne)
        fuel (initState run0) hmem

/-- C3 amended witness: with one MCP call demanding approval, an approval
with that call id and approve set is gathered and submitted. -/
theorem drive_until_complete_services_mcp_calls_witness :
    LoopEvent.submitApprovalsEv
        [{ tool_call_id := "call_1", approve := true,
           headers := some [("Authorization", "Bearer tok")] }]
      ∈ (drive_until_complete (sampleEnv runCompleted) runApproval 3).2 := by
  have h := (drive_until_complete_services_mcp_calls
    (sampleEnv runCompleted) runApproval 3).1 [mcpCall]
    [{ tool_call_id := "call_1", approve := true,
       headers := some [("Authorization", "Bearer tok")] }]
    (List.mem_cons_self _ _)
  exact h.2 (fun habs => List.noConfusion habs)

/-- C4: whenever drive_until_complete ends by timeout it has attempted the
cancellation exactly once (the trace holds exactly one cancel event), a
non-timeout outcome never cancels, an iteration that reads a clock past
start plus timeout with a still non-terminal run exits right there with
the single cancel event, and the whole run of the loop is unchanged by the
outcome of the cancellation call - in particular it exits even when the
cancellation raises. -/
theorem drive_until_complete_timeout_spec (env : DriveEnv) (run0 : Run) (fuel : Nat) :
    (∀ r t, (drive_until_complete env run0 fuel).1 = .timedOut r t →
      countCancel (drive_until_complete env run0 fuel).2 = 1)
    ∧ ((∀ r t, (drive_until_complete env run0 fuel).1 ≠ .timedOut r t) →
      countCancel (drive_until_complete env run0 fuel).2 = 0)
    ∧ (nonTerminal run0.status = true →
        env.times 1 - env.time0 > env.timeout_seconds →
        drive_until_complete env run0 (fuel + 1)
          = (.timedOut run0 (env.times 1), [LoopEvent.cancelEv]))
    ∧ (∀ c, drive_until_complete { env with cancel := c } run0 fuel
        = drive_until_complete env run0 fuel) := by
  refine ⟨(driveLoop_countCancel env fuel (initState run0)).1,
    (driveLoop_countCancel env fuel (initState run0)).2, ?_,
    fun c => driveLoop_cancel_congr env c fuel (initState run0)⟩
  intro hnt htime
  unfold drive_until_complete driveLoop
  rw [if_pos (show nonTerminal (initState run0).run.status = true from hnt)]
  rw [driveStep_timeout_trigger env (initState run0) htime]
  rfl

/-- C4 witness: with the clock far past the timeout, the loop cancels once
and exits as timed out on its first iteration. -/
theorem drive_until_complete_timeout_spec_witness :
    drive_until_complete lateEnv runQueued 1
      = (.timedOut runQueued 1000, [LoopEvent.cancelEv]) :=
  (drive_until_complete_timeout_spec lateEnv runQueued 0).2.2.1 (by decide) (by decide)
